import Mathlib

/-!
Verification of the heat-hazard data pipeline and inference service.

The development shallowly embeds the numeric core of the repository:
the pandas rolling-mean aggregation used by data_preparation.py and
improved_model.py, the asof temporal alignment and nearest-point join of
prep_data.py / data_preparation.py, the feature engineering of
improved_model.py and inference/main.py, the threshold selection of
improved_model.py, and the request handling of inference/main.py.

Numeric conventions: quantities never passed through transcendental
functions are modelled as rationals; the engineered feature vectors use
real numbers because the code applies sin, cos and sqrt to them.
-/

set_option maxHeartbeats 1000000

namespace HeatHazard

/-! ## Rolling aggregator

Models pandas Series.rolling(window = w, min_periods = 1).mean() as used in
data_preparation.compute_rolling_averages (window 3 over temp, tavg, tmin),
prep_data.preprocess (window 72) and improved_model.add_rolling_features
(windows 3 and 7 per group): at each position the mean of the trailing
window of at most w observations, never fewer than one.
-/

/-- The trailing window of width w ending at position i: the observations at
positions max(0, i - w + 1) .. i (pandas rolling with min_periods = 1;
note i + 1 - w is truncated natural subtraction). -/
def windowSlice (w : ℕ) (xs : List ℚ) (i : ℕ) : List ℚ :=
  (xs.take (i + 1)).drop (i + 1 - w)

/-- Series.rolling(window = w, min_periods = 1).mean(): position i of the
output is the arithmetic mean of the trailing window ending at i. -/
def rollingMean (w : ℕ) (xs : List ℚ) : List ℚ :=
  (List.range xs.length).map
    (fun i => (windowSlice w xs i).sum / ((windowSlice w xs i).length : ℚ))

lemma length_rollingMean (w : ℕ) (xs : List ℚ) :
    (rollingMean w xs).length = xs.length := by
  simp [rollingMean]

lemma rollingMean_getElem? (w : ℕ) (xs : List ℚ) (i : ℕ) (h : i < xs.length) :
    (rollingMean w xs)[i]? =
      some ((windowSlice w xs i).sum / ((windowSlice w xs i).length : ℚ)) := by
  simp [rollingMean, List.getElem?_range, h]

lemma take_succ_drop_self (xs : List ℚ) (i : ℕ) (h : i < xs.length) :
    (xs.take (i + 1)).drop i = [xs.get ⟨i, h⟩] := by
  rw [List.drop_take, List.drop_eq_getElem_cons h, show i + 1 - i = 1 from by omega]
  rfl

lemma windowSlice_zero (w : ℕ) (hw : 1 ≤ w) (x : ℚ) (rest : List ℚ) :
    windowSlice w (x :: rest) 0 = [x] := by
  simp [windowSlice, Nat.sub_eq_zero_of_le hw]

/-- C3: for every sequence of observations and window w ≥ 1, the rolling
aggregator preserves length; each output element is the mean of the
observations at positions max(0, i-w+1) .. i; the first output equals the
first input; a single observation yields itself; and window 1 is the
identity. -/
theorem rollingMean_spec (w : ℕ) (hw : 1 ≤ w) (xs : List ℚ) :
    (rollingMean w xs).length = xs.length
    ∧ (∀ i, i < xs.length →
        (rollingMean w xs)[i]? =
          some (((xs.take (i + 1)).drop (i + 1 - w)).sum /
                (((xs.take (i + 1)).drop (i + 1 - w)).length : ℚ)))
    ∧ (∀ x rest, xs = x :: rest → (rollingMean w xs).head? = some x)
    ∧ (∀ a : ℚ, rollingMean w [a] = [a])
    ∧ (w = 1 → rollingMean w xs = xs) := by
  refine ⟨length_rollingMean w xs, ?_, ?_, ?_, ?_⟩
  · intro i h
    exact rollingMean_getElem? w xs i h
  · intro x rest hxs
    subst hxs
    have h0 : (0 : ℕ) < (x :: rest).length := by simp
    have h := rollingMean_getElem? w (x :: rest) 0 h0
    rw [windowSlice_zero w hw x rest] at h
    rw [List.head?_eq_getElem?, h]
    norm_num
  · intro a
    have hr : rollingMean w [a] =
        [(windowSlice w [a] 0).sum / ((windowSlice w [a] 0).length : ℚ)] := rfl
    rw [hr, windowSlice_zero w hw a []]
    norm_num
  · intro hw1
    subst hw1
    apply List.ext_getElem?
    intro i
    by_cases h : i < xs.length
    · rw [rollingMean_getElem? 1 xs i h]
      have hws : windowSlice 1 xs i = [xs.get ⟨i, h⟩] := by
        rw [windowSlice, Nat.add_sub_cancel]
        exact take_succ_drop_self xs i h
      rw [hws]
      simp [List.getElem?_eq_getElem h]
    · have h' : xs.length ≤ i := le_of_not_lt h
      rw [List.getElem?_eq_none h',
        List.getElem?_eq_none (by rw [length_rollingMean]; exact h')]

/-- Witness for C3 at window 3 and a concrete three-element sequence. -/
theorem rollingMean_spec_witness :
    1 ≤ 3
    ∧ ((rollingMean 3 [1, 2, 4]).length = ([1, 2, 4] : List ℚ).length
    ∧ (∀ i, i < ([1, 2, 4] : List ℚ).length →
        (rollingMean 3 [1, 2, 4])[i]? =
          some (((([1, 2, 4] : List ℚ).take (i + 1)).drop (i + 1 - 3)).sum /
                (((([1, 2, 4] : List ℚ).take (i + 1)).drop (i + 1 - 3)).length : ℚ)))
    ∧ (∀ x rest, ([1, 2, 4] : List ℚ) = x :: rest →
        (rollingMean 3 [1, 2, 4]).head? = some x)
    ∧ (∀ a : ℚ, rollingMean 3 [a] = [a])
    ∧ (3 = 1 → rollingMean 3 [1, 2, 4] = [1, 2, 4])) :=
  ⟨by decide, rollingMean_spec 3 (by decide) [1, 2, 4]⟩

/-! ## Risk tiers

get_risk_level from inference/main.py discretizes a risk probability into a
display tier. -/

/-- get_risk_level from inference/main.py. -/
noncomputable def get_risk_level (risk_score : ℝ) : String :=
  if risk_score < 0.3 then "LOW"
  else if risk_score < 0.6 then "MEDIUM"
  else if risk_score < 0.8 then "HIGH"
  else "EXTREME"

lemma get_risk_level_low_iff (s : ℝ) : get_risk_level s = "LOW" ↔ s < 0.3 := by
  unfold get_risk_level
  split_ifs with h1 h2 h3
  · simp [h1]
  · simp only [iff_false, h1]; decide
  · simp only [iff_false, h1]; decide
  · simp only [iff_false, h1]; decide

lemma get_risk_level_medium_iff (s : ℝ) :
    get_risk_level s = "MEDIUM" ↔ 0.3 ≤ s ∧ s < 0.6 := by
  unfold get_risk_level
  split_ifs with h1 h2 h3
  · constructor
    · intro h; exact absurd h (by decide)
    · rintro ⟨h, -⟩; exact absurd h1 (not_lt.mpr h)
  · simp [not_lt.mp h1, h2]
  · constructor
    · intro h; exact absurd h (by decide)
    · rintro ⟨-, h⟩; exact absurd h h2
  · constructor
    · intro h; exact absurd h (by decide)
    · rintro ⟨-, h⟩; exact absurd h h2

lemma get_risk_level_high_iff (s : ℝ) :
    get_risk_level s = "HIGH" ↔ 0.6 ≤ s ∧ s < 0.8 := by
  unfold get_risk_level
  split_ifs with h1 h2 h3
  · constructor
    · intro h; exact absurd h (by decide)
    · rintro ⟨h, -⟩
      exact absurd h1 (not_lt.mpr (le_trans (by norm_num) h))
  · constructor
    · intro h; exact absurd h (by decide)
    · rintro ⟨h, -⟩; exact absurd h2 (not_lt.mpr h)
  · simp [not_lt.mp h2, h3]
  · constructor
    · intro h; exact absurd h (by decide)
    · rintro ⟨-, h⟩; exact absurd h h3

lemma get_risk_level_extreme_iff (s : ℝ) :
    get_risk_level s = "EXTREME" ↔ 0.8 ≤ s := by
  unfold get_risk_level
  split_ifs with h1 h2 h3
  · constructor
    · intro h; exact absurd h (by decide)
    · intro h; exact absurd h1 (not_lt.mpr (le_trans (by norm_num) h))
  · constructor
    · intro h; exact absurd h (by decide)
    · intro h; exact absurd h2 (not_lt.mpr (le_trans (by norm_num) h))
  · constructor
    · intro h; exact absurd h (by decide)
    · intro h; exact absurd h3 (not_lt.mpr h)
  · simp [not_lt.mp h3]

/-- C7: the risk-tier mapping returns LOW iff score < 0.3, MEDIUM iff it is
in [0.3, 0.6), HIGH iff in [0.6, 0.8), EXTREME iff ≥ 0.8; and the concrete
boundary scores 0.29, 0.30, 0.59999, 0.6, 0.8 map to LOW, MEDIUM, MEDIUM,
HIGH, EXTREME respectively. -/
theorem get_risk_level_spec (s : ℝ) :
    (get_risk_level s = "LOW" ↔ s < 0.3)
    ∧ (get_risk_level s = "MEDIUM" ↔ 0.3 ≤ s ∧ s < 0.6)
    ∧ (get_risk_level s = "HIGH" ↔ 0.6 ≤ s ∧ s < 0.8)
    ∧ (get_risk_level s = "EXTREME" ↔ 0.8 ≤ s)
    ∧ get_risk_level (0.29 : ℝ) = "LOW"
    ∧ get_risk_level (0.30 : ℝ) = "MEDIUM"
    ∧ get_risk_level (0.59999 : ℝ) = "MEDIUM"
    ∧ get_risk_level (0.6 : ℝ) = "HIGH"
    ∧ get_risk_level (0.8 : ℝ) = "EXTREME" :=
  ⟨get_risk_level_low_iff s, get_risk_level_medium_iff s,
   get_risk_level_high_iff s, get_risk_level_extreme_iff s,
   (get_risk_level_low_iff _).mpr (by norm_num),
   (get_risk_level_medium_iff _).mpr (by norm_num),
   (get_risk_level_medium_iff _).mpr (by norm_num),
   (get_risk_level_high_iff _).mpr (by norm_num),
   (get_risk_level_extreme_iff _).mpr (by norm_num)⟩

/-! ## Temporal aligner (prep_data.preprocess, lines 69-75)

The code floors incident and weather timestamps to the hour
(dt.floor of H), sorts both sides by the floored key, and runs
pd.merge_asof with direction backward.  Timestamps are modelled as
integer minutes; merge_asof backward matches each left key to the last
right row whose key is ≤ the left key. -/

/-- dt.floor to the hour on a timestamp in minutes: floor division by 60
(pandas floors toward the past, hence Int.fdiv). -/
def floorHour (t : ℤ) : ℤ := 60 * Int.fdiv t 60

/-- The pd.merge_asof direction-backward match for one left key: the last
right key that is ≤ the left key (right keys sorted ascending), none when
every right key is later. -/
def asofBackward (ws : List ℤ) (k : ℤ) : Option ℤ :=
  (ws.filter (fun w => decide (w ≤ k))).getLast?

/-- The hour-floored backward asof join of prep_data.preprocess: each
incident timestamp is paired with the match for its floored hour among the
floored weather hours. -/
def mergeAsofHours (incidents weather : List ℤ) : List (ℤ × Option ℤ) :=
  incidents.map
    (fun t => (floorHour t, asofBackward (weather.map floorHour) (floorHour t)))

lemma asofBackward_le {ws : List ℤ} {k m : ℤ}
    (h : asofBackward ws k = some m) : m ≤ k := by
  have hm := List.mem_of_getLast?_eq_some h
  have := List.mem_filter.mp hm
  exact of_decide_eq_true this.2

lemma asofBackward_none {ws : List ℤ} {k : ℤ}
    (h : ∀ w ∈ ws, k < w) : asofBackward ws k = none := by
  unfold asofBackward
  have : ws.filter (fun w => decide (w ≤ k)) = [] := by
    rw [List.filter_eq_nil_iff]
    intro a ha
    simpa using not_le.mpr (h a ha)
  rw [this]
  rfl

/-- C4: over sorted incident and weather sequences, the hour-floored
backward asof join never matches an incident to a weather record whose
floored timestamp is later than the incident's floored timestamp, and an
incident earlier than all weather records gets a null match. -/
theorem mergeAsofHours_spec (incidents weather : List ℤ)
    (hinc : incidents.Sorted (· ≤ ·)) (hwea : weather.Sorted (· ≤ ·)) :
    (mergeAsofHours incidents weather).length = incidents.length
    ∧ ∀ p ∈ mergeAsofHours incidents weather,
        (∀ m, p.2 = some m → m ≤ p.1)
        ∧ ((∀ u ∈ weather, p.1 < floorHour u) → p.2 = none) := by
  refine ⟨by simp [mergeAsofHours], ?_⟩
  intro p hp
  obtain ⟨t, -, rfl⟩ := List.mem_map.mp hp
  constructor
  · intro m hm
    exact asofBackward_le hm
  · intro hearly
    apply asofBackward_none
    intro w hw
    obtain ⟨u, hu, rfl⟩ := List.mem_map.mp hw
    exact hearly u hu

/-- Witness for C4 on concrete sorted timestamp lists. -/
theorem mergeAsofHours_spec_witness :
    ([30, 150] : List ℤ).Sorted (· ≤ ·)
    ∧ ([70, 125] : List ℤ).Sorted (· ≤ ·)
    ∧ ((mergeAsofHours [30, 150] [70, 125]).length = ([30, 150] : List ℤ).length
    ∧ ∀ p ∈ mergeAsofHours [30, 150] [70, 125],
        (∀ m, p.2 = some m → m ≤ p.1)
        ∧ ((∀ u ∈ ([70, 125] : List ℤ), p.1 < floorHour u) → p.2 = none)) :=
  ⟨by decide, by decide, mergeAsofHours_spec [30, 150] [70, 125] (by decide) (by decide)⟩

/-! ## Nearest-point spatial join

prep_data.preprocess line 62 calls
incidents_gdf.sjoin_nearest(weather_gdf[...], how = left,
distance_col = weather_dist, max_distance = 0.05), and
data_preparation.spatial_temporal_join lines 186-192 call
gpd.sjoin_nearest without a cutoff.  The geopandas implementation is not
part of src, so the candidate selection is modelled from the spec. -/

/-- Squared planar Euclidean distance between two lon/lat points.  The
spec's nearest-point contract compares Euclidean distances; squaring is a
strictly monotone transform on nonnegative distances, so minimizers and
cutoff comparisons (against the squared cutoff) are preserved exactly. -/
def sqDist (p q : ℚ × ℚ) : ℚ := (p.1 - q.1) ^ 2 + (p.2 - q.2) ^ 2

/-- First element of the list attaining the minimum of f: a later element
replaces the current best only when strictly closer. -/
def argminFirst {α : Type} (f : α → ℚ) : List α → Option α
  | [] => none
  | x :: rest =>
    match argminFirst f rest with
    | none => some x
    | some y => if f y < f x then some y else some x

/-- Modelled from the spec: gpd.sjoin_nearest for a single incident point
(the library body is not in src).  Per spec section 4.2: select the
candidate weather point minimizing planar Euclidean distance, break
equidistant ties by input order (first wins), and when a distance cutoff
is configured reject the match if the distance exceeds the cutoff, leaving
the match null. -/
def sjoin_nearest (cutoff : Option ℚ) (p : ℚ × ℚ) (cands : List (ℚ × ℚ)) :
    Option (ℚ × ℚ) :=
  match argminFirst (sqDist p) cands with
  | none => none
  | some c =>
    match cutoff with
    | none => some c
    | some d => if sqDist p c ≤ d ^ 2 then some c else none

lemma argminFirst_eq_none {α : Type} (f : α → ℚ) (l : List α) :
    argminFirst f l = none ↔ l = [] := by
  cases l with
  | nil => simp [argminFirst]
  | cons x rest =>
    simp only [argminFirst]
    constructor
    · intro h
      cases hrest : argminFirst f rest with
      | none => rw [hrest] at h; simp at h
      | some y =>
        rw [hrest] at h
        by_cases hlt : f y < f x <;> simp [hlt] at h
    · intro h; exact absurd h (List.cons_ne_nil x rest)

lemma argminFirst_mem {α : Type} {f : α → ℚ} :
    ∀ {l : List α} {x : α}, argminFirst f l = some x → x ∈ l := by
  intro l
  induction l with
  | nil => intro x h; simp [argminFirst] at h
  | cons a rest ih =>
    intro x h
    simp only [argminFirst] at h
    cases hrest : argminFirst f rest with
    | none => rw [hrest] at h; simp at h; simp [h]
    | some y =>
      rw [hrest] at h
      by_cases hlt : f y < f a
      · simp [hlt] at h
        exact h ▸ List.mem_cons_of_mem a (ih hrest)
      · simp [hlt] at h
        simp [h]

lemma argminFirst_min {α : Type} {f : α → ℚ} :
    ∀ {l : List α} {x : α}, argminFirst f l = some x → ∀ y ∈ l, f x ≤ f y := by
  intro l
  induction l with
  | nil => intro x h; simp [argminFirst] at h
  | cons a rest ih =>
    intro x h y hy
    simp only [argminFirst] at h
    cases hrest : argminFirst f rest with
    | none =>
      rw [hrest] at h
      simp at h
      subst h
      rcases List.mem_cons.mp hy with rfl | hy'
      · exact le_refl _
      · exact absurd ((argminFirst_eq_none f rest).mp hrest ▸ hy') (List.not_mem_nil y)
    | some b =>
      rw [hrest] at h
      by_cases hlt : f b < f a
      · simp [hlt] at h
        subst h
        rcases List.mem_cons.mp hy with rfl | hy'
        · exact le_of_lt hlt
        · exact ih hrest y hy'
      · simp [hlt] at h
        subst h
        rcases List.mem_cons.mp hy with rfl | hy'
        · exact le_refl _
        · exact le_trans (not_lt.mp hlt) (ih hrest y hy')

lemma argminFirst_first {α : Type} {f : α → ℚ} :
    ∀ {l : List α} {x : α}, argminFirst f l = some x →
      ∃ i, ∃ hi : i < l.length, l.get ⟨i, hi⟩ = x ∧
        ∀ j, (hj : j < i) → f x < f (l.get ⟨j, hj.trans hi⟩) := by
  intro l
  induction l with
  | nil => intro x h; simp [argminFirst] at h
  | cons a rest ih =>
    intro x h
    simp only [argminFirst] at h
    cases hrest : argminFirst f rest with
    | none =>
      rw [hrest] at h
      simp at h
      subst h
      exact ⟨0, by simp, rfl, fun j hj => absurd hj (Nat.not_lt_zero j)⟩
    | some b =>
      rw [hrest] at h
      by_cases hlt : f b < f a
      · simp [hlt] at h
        subst h
        obtain ⟨i, hi, hget, hfirst⟩ := ih hrest
        refine ⟨i + 1, by simpa using hi, by simpa using hget, ?_⟩
        intro j hj
        cases j with
        | zero => simpa using hlt
        | succ j' =>
          have hj' : j' < i := Nat.lt_of_succ_lt_succ hj
          simpa using hfirst j' hj'
      · simp [hlt] at h
        subst h
        exact ⟨0, by simp, rfl, fun j hj => absurd hj (Nat.not_lt_zero j)⟩

/-- C5: on a non-empty candidate list, the nearest-point join returns a
candidate minimizing the planar distance, and specifically the first such
candidate in input order (strictly closer than every earlier candidate);
with no cutoff a match always exists; with a cutoff, if every candidate is
strictly farther than the cutoff the match is null. -/
theorem sjoin_nearest_spec (cutoff : Option ℚ) (p : ℚ × ℚ)
    (cands : List (ℚ × ℚ)) (hne : cands ≠ []) :
    (∀ c, sjoin_nearest cutoff p cands = some c →
        c ∈ cands
        ∧ (∀ c' ∈ cands, sqDist p c ≤ sqDist p c')
        ∧ ∃ i, ∃ hi : i < cands.length, cands.get ⟨i, hi⟩ = c ∧
            ∀ j, (hj : j < i) → sqDist p c < sqDist p (cands.get ⟨j, hj.trans hi⟩))
    ∧ (cutoff = none → ∃ c, sjoin_nearest cutoff p cands = some c)
    ∧ (∀ d, cutoff = some d → (∀ c' ∈ cands, d ^ 2 < sqDist p c') →
        sjoin_nearest cutoff p cands = none) := by
  obtain ⟨m, hm⟩ : ∃ m, argminFirst (sqDist p) cands = some m := by
    cases harg : argminFirst (sqDist p) cands with
    | none => exact absurd ((argminFirst_eq_none _ _).mp harg) hne
    | some m => exact ⟨m, rfl⟩
  refine ⟨?_, ?_, ?_⟩
  · intro c hc
    unfold sjoin_nearest at hc
    rw [hm] at hc
    have hcm : c = m := by
      cases cutoff with
      | none => simpa using hc.symm
      | some d =>
        by_cases hd : sqDist p m ≤ d ^ 2 <;> simp [hd] at hc
        exact hc.symm
    subst hcm
    exact ⟨argminFirst_mem hm, argminFirst_min hm, argminFirst_first hm⟩
  · intro hcut
    subst hcut
    refine ⟨m, ?_⟩
    unfold sjoin_nearest
    rw [hm]
  · intro d hcut hfar
    subst hcut
    unfold sjoin_nearest
    rw [hm]
    have : ¬ sqDist p m ≤ d ^ 2 := not_le.mpr (hfar m (argminFirst_mem hm))
    simp [this]

/-- Witness for C5 on a concrete incident point, candidate list and cutoff. -/
theorem sjoin_nearest_spec_witness :
    (([(0, 3), (2, 0), (0, 1)] : List (ℚ × ℚ)) ≠ [])
    ∧ ((∀ c, sjoin_nearest (some 5) ((0 : ℚ), (0 : ℚ)) [(0, 3), (2, 0), (0, 1)] = some c →
        c ∈ ([(0, 3), (2, 0), (0, 1)] : List (ℚ × ℚ))
        ∧ (∀ c' ∈ ([(0, 3), (2, 0), (0, 1)] : List (ℚ × ℚ)),
            sqDist (0, 0) c ≤ sqDist (0, 0) c')
        ∧ ∃ i, ∃ hi : i < ([(0, 3), (2, 0), (0, 1)] : List (ℚ × ℚ)).length,
            ([(0, 3), (2, 0), (0, 1)] : List (ℚ × ℚ)).get ⟨i, hi⟩ = c ∧
            ∀ j, (hj : j < i) → sqDist (0, 0) c <
              sqDist (0, 0) (([(0, 3), (2, 0), (0, 1)] : List (ℚ × ℚ)).get ⟨j, hj.trans hi⟩))
    ∧ ((some 5 : Option ℚ) = none →
        ∃ c, sjoin_nearest (some 5) ((0 : ℚ), (0 : ℚ)) [(0, 3), (2, 0), (0, 1)] = some c)
    ∧ (∀ d, (some 5 : Option ℚ) = some d →
        (∀ c' ∈ ([(0, 3), (2, 0), (0, 1)] : List (ℚ × ℚ)), d ^ 2 < sqDist (0, 0) c') →
        sjoin_nearest (some 5) ((0 : ℚ), (0 : ℚ)) [(0, 3), (2, 0), (0, 1)] = none)) :=
  ⟨by decide, sjoin_nearest_spec (some 5) (0, 0) [(0, 3), (2, 0), (0, 1)] (by decide)⟩

/-! ## Threshold selection (improved_model.find_best_threshold)

The sklearn precision_recall_curve call is an external collaborator: it
returns precision and recall arrays one longer than the threshold array
(the final (1, 0) point carries no threshold).  find_best_threshold is
embedded over those three arrays: it masks thresholds to [0.05, 0.95],
drops the final precision/recall entries, computes F1 with the 1e-9
epsilon, and returns the threshold of the first maximal F1 (np.argmax). -/

/-- The band test (t >= 0.05) & (t <= 0.95) applied to one threshold. -/
def prMask (t : ℚ) : Bool := decide ((0.05 : ℚ) ≤ t) && decide (t ≤ (0.95 : ℚ))

/-- f1 = 2 * (p * r) / (p + r + 1e-9) as computed in find_best_threshold. -/
def f1Score (p r : ℚ) : ℚ := 2 * (p * r) / (p + r + (1e-9 : ℚ))

/-- First element of the list attaining the maximum of f (np.argmax keeps
the first occurrence of the maximum). -/
def bestBy {α : Type} (f : α → ℚ) : List α → Option α
  | [] => none
  | x :: rest =>
    match bestBy f rest with
    | none => some x
    | some y => if f x < f y then some y else some x

/-- find_best_threshold from improved_model.py, lines 109-117, over the
arrays p, r, t produced by precision_recall_curve.  The candidate list
zips each threshold with its precision/recall pair from p[:-1] and r[:-1];
for the array shapes sklearn produces (len p = len r = len t + 1) the zip
followed by the band filter coincides with the numpy boolean masking
p[:-1][mask], r[:-1][mask], t[mask] of the source. -/
def find_best_threshold (p r t : List ℚ) : ℚ × ℚ :=
  if t.all (fun x => ! prMask x) then ((0.5 : ℚ), 0)
  else
    let cand := (t.zip (p.dropLast.zip r.dropLast)).filter (fun x => prMask x.1)
    match bestBy (fun x => f1Score x.2.1 x.2.2) cand with
    | none => ((0.5 : ℚ), 0)
    | some x => (x.1, f1Score x.2.1 x.2.2)

lemma bestBy_eq_none {α : Type} (f : α → ℚ) (l : List α) :
    bestBy f l = none ↔ l = [] := by
  cases l with
  | nil => simp [bestBy]
  | cons x rest =>
    simp only [bestBy]
    constructor
    · intro h
      cases hrest : bestBy f rest with
      | none => rw [hrest] at h; simp at h
      | some y =>
        rw [hrest] at h
        by_cases hlt : f x < f y <;> simp [hlt] at h
    · intro h; exact absurd h (List.cons_ne_nil x rest)

lemma bestBy_mem {α : Type} {f : α → ℚ} :
    ∀ {l : List α} {x : α}, bestBy f l = some x → x ∈ l := by
  intro l
  induction l with
  | nil => intro x h; simp [bestBy] at h
  | cons a rest ih =>
    intro x h
    simp only [bestBy] at h
    cases hrest : bestBy f rest with
    | none => rw [hrest] at h; simp at h; simp [h]
    | some y =>
      rw [hrest] at h
      by_cases hlt : f a < f y
      · simp [hlt] at h
        exact h ▸ List.mem_cons_of_mem a (ih hrest)
      · simp [hlt] at h
        simp [h]

lemma bestBy_max {α : Type} {f : α → ℚ} :
    ∀ {l : List α} {x : α}, bestBy f l = some x → ∀ y ∈ l, f y ≤ f x := by
  intro l
  induction l with
  | nil => intro x h; simp [bestBy] at h
  | cons a rest ih =>
    intro x h y hy
    simp only [bestBy] at h
    cases hrest : bestBy f rest with
    | none =>
      rw [hrest] at h
      simp at h
      subst h
      rcases List.mem_cons.mp hy with rfl | hy'
      · exact le_refl _
      · exact absurd ((bestBy_eq_none f rest).mp hrest ▸ hy') (List.not_mem_nil y)
    | some b =>
      rw [hrest] at h
      by_cases hlt : f a < f b
      · simp [hlt] at h
        subst h
        rcases List.mem_cons.mp hy with rfl | hy'
        · exact le_of_lt hlt
        · exact ih hrest y hy'
      · simp [hlt] at h
        subst h
        rcases List.mem_cons.mp hy with rfl | hy'
        · exact le_refl _
        · exact le_trans (ih hrest y hy') (not_lt.mp hlt)

/-- C6: whenever some precision-recall candidate threshold lies in
[0.05, 0.95], find_best_threshold returns one of those candidates together
with its computed F1, and that F1 is maximal among all in-band candidates. -/
theorem find_best_threshold_spec (p r t : List ℚ)
    (hcand : (t.zip (p.dropLast.zip r.dropLast)).filter (fun x => prMask x.1) ≠ []) :
    ∃ x ∈ (t.zip (p.dropLast.zip r.dropLast)).filter (fun x => prMask x.1),
      find_best_threshold p r t = (x.1, f1Score x.2.1 x.2.2)
      ∧ ((0.05 : ℚ) ≤ x.1 ∧ x.1 ≤ (0.95 : ℚ))
      ∧ ∀ y ∈ (t.zip (p.dropLast.zip r.dropLast)).filter (fun y => prMask y.1),
          f1Score y.2.1 y.2.2 ≤ f1Score x.2.1 x.2.2 := by
  obtain ⟨x, hx⟩ : ∃ x, bestBy (fun x => f1Score x.2.1 x.2.2)
      ((t.zip (p.dropLast.zip r.dropLast)).filter (fun x => prMask x.1)) = some x := by
    cases hb : bestBy (fun x => f1Score x.2.1 x.2.2)
        ((t.zip (p.dropLast.zip r.dropLast)).filter (fun x => prMask x.1)) with
    | none => exact absurd ((bestBy_eq_none _ _).mp hb) hcand
    | some x => exact ⟨x, rfl⟩
  have hxmem : x ∈ (t.zip (p.dropLast.zip r.dropLast)).filter (fun x => prMask x.1) :=
    bestBy_mem hx
  have hmask : prMask x.1 = true := (List.mem_filter.mp hxmem).2
  have hxt : x.1 ∈ t := (List.of_mem_zip (List.mem_filter.mp hxmem).1).1
  have hall : ¬ (t.all (fun x => ! prMask x) = true) := by
    rw [List.all_eq_true]
    intro hno
    have := hno x.1 hxt
    rw [hmask] at this
    simp at this
  refine ⟨x, hxmem, ?_, ?_, fun y hy => bestBy_max hx y hy⟩
  · unfold find_best_threshold
    rw [if_neg hall]
    simp only [hx]
  · have := hmask
    simp only [prMask, Bool.and_eq_true, decide_eq_true_eq] at this
    exact this

/-- Witness for C6 on a concrete precision-recall curve. -/
theorem find_best_threshold_spec_witness :
    ((([0.5, 0.7] : List ℚ).zip
        (([0.8, 0.9, 1] : List ℚ).dropLast.zip
          (([0.6, 0.3, 0] : List ℚ).dropLast))).filter (fun x => prMask x.1) ≠ [])
    ∧ ∃ x ∈ (([0.5, 0.7] : List ℚ).zip
        (([0.8, 0.9, 1] : List ℚ).dropLast.zip
          (([0.6, 0.3, 0] : List ℚ).dropLast))).filter (fun x => prMask x.1),
        find_best_threshold [0.8, 0.9, 1] [0.6, 0.3, 0] [0.5, 0.7] =
          (x.1, f1Score x.2.1 x.2.2)
        ∧ ((0.05 : ℚ) ≤ x.1 ∧ x.1 ≤ (0.95 : ℚ))
        ∧ ∀ y ∈ (([0.5, 0.7] : List ℚ).zip
            (([0.8, 0.9, 1] : List ℚ).dropLast.zip
              (([0.6, 0.3, 0] : List ℚ).dropLast))).filter (fun y => prMask y.1),
            f1Score y.2.1 y.2.2 ≤ f1Score x.2.1 x.2.2 :=
  ⟨by intro h; norm_num [prMask, List.filter] at h; simp at h,
   find_best_threshold_spec [0.8, 0.9, 1] [0.6, 0.3, 0] [0.5, 0.7]
     (by intro h; norm_num [prMask, List.filter] at h; simp at h)⟩

/-- C10: when no threshold from the precision-recall curve lies in
[0.05, 0.95], find_best_threshold returns the default threshold 0.5 with
F1 reported as 0.0 instead of failing. -/
theorem find_best_threshold_default (p r t : List ℚ)
    (h : ∀ τ ∈ t, ¬((0.05 : ℚ) ≤ τ ∧ τ ≤ (0.95 : ℚ))) :
    find_best_threshold p r t = ((0.5 : ℚ), 0) := by
  unfold find_best_threshold
  have hall : t.all (fun x => ! prMask x) = true := by
    rw [List.all_eq_true]
    intro x hx
    have := h x hx
    simp only [prMask, Bool.not_eq_true', Bool.and_eq_false_iff]
    by_cases h1 : (0.05 : ℚ) ≤ x
    · right
      simp only [decide_eq_false_iff_not]
      intro h2
      exact this ⟨h1, h2⟩
    · left
      simp only [decide_eq_false_iff_not]
      exact h1
  rw [if_pos hall]

/-- Witness for C10: a curve whose thresholds all fall outside the band. -/
theorem find_best_threshold_default_witness :
    (∀ τ ∈ ([0.01, 0.99] : List ℚ), ¬((0.05 : ℚ) ≤ τ ∧ τ ≤ (0.95 : ℚ)))
    ∧ find_best_threshold [1, 1, 1] [1, 0.5, 0] [0.01, 0.99] = ((0.5 : ℚ), 0) :=
  ⟨by norm_num,
   find_best_threshold_default [1, 1, 1] [1, 0.5, 0] [0.01, 0.99] (by norm_num)⟩

/-! ## Grouped rolling features (improved_model.add_rolling_features)

add_rolling_features sorts the frame by (lat, lon, timestamp) and then
computes df.groupby([lat, lon])[col].rolling(w, min_periods = 1).mean()
with the group level dropped, leaving the rolling values aligned to the
sorted rows.  Rows are modelled as key/value pairs; after the sort, rows
with equal keys are contiguous, so the groupby is the list of maximal
runs of equal keys. -/

/-- Prepend one row to a run decomposition: extend the first run when the
key matches, open a new run otherwise. -/
def consRun {K : Type} [DecidableEq K] (k : K) (v : ℚ) :
    List (K × List ℚ) → List (K × List ℚ)
  | [] => [(k, [v])]
  | (k', vs) :: out =>
    if k = k' then (k, v :: vs) :: out else (k, [v]) :: (k', vs) :: out

/-- Split a list of key/value rows into maximal runs of equal keys (the
groups of a pandas groupby applied to a key-sorted frame). -/
def groupRuns {K : Type} [DecidableEq K] : List (K × ℚ) → List (K × List ℚ)
  | [] => []
  | (k, v) :: rest => consRun k v (groupRuns rest)

/-- add_rolling_features for one column: per-group rolling mean of window
w, values re-aligned to the (sorted) row order with their keys. -/
def add_rolling_features {K : Type} [DecidableEq K] (w : ℕ) (xs : List (K × ℚ)) :
    List (K × ℚ) :=
  (groupRuns xs).flatMap (fun g => (rollingMean w g.2).map (fun v => (g.1, v)))

lemma rollingMean_nil (w : ℕ) : rollingMean w [] = [] := rfl

lemma groupRuns_flatten {K : Type} [DecidableEq K] :
    ∀ xs : List (K × ℚ),
      (groupRuns xs).flatMap (fun g => g.2.map (fun v => (g.1, v))) = xs := by
  intro xs
  induction xs with
  | nil => rfl
  | cons x rest ih =>
    obtain ⟨k, v⟩ := x
    simp only [groupRuns]
    cases hg : groupRuns rest with
    | nil =>
      rw [hg] at ih
      simp only [List.flatMap_nil] at ih
      simp [consRun, ← ih]
    | cons g out =>
      obtain ⟨k', vs⟩ := g
      rw [hg] at ih
      by_cases hk : k = k'
      · subst hk
        simp only [consRun, eq_self_iff_true, if_true, List.flatMap_cons,
          List.map_cons, List.cons_append]
        simp only [List.flatMap_cons] at ih
        rw [ih]
      · simp only [consRun, if_neg hk, List.flatMap_cons, List.map_cons,
          List.map_nil, List.cons_append, List.nil_append]
        simp only [List.flatMap_cons] at ih
        rw [ih]

lemma flatMap_single_key {K : Type} [DecidableEq K]
    (F : List ℚ → List ℚ) (hF : F [] = [])
    (k : K) :
    ∀ rs : List (K × List ℚ), (rs.map Prod.fst).Pairwise (fun a b => a ≠ b) →
      rs.flatMap (fun g => if g.1 = k then F g.2 else []) =
        F (rs.flatMap (fun g => if g.1 = k then g.2 else [])) := by
  intro rs
  induction rs with
  | nil => simpa using hF.symm
  | cons g rs' ih =>
    intro hpw
    simp only [List.map_cons, List.pairwise_cons] at hpw
    obtain ⟨hg, hpw'⟩ := hpw
    by_cases hk : g.1 = k
    · have hne : ∀ g' ∈ rs', g'.1 ≠ k := by
        intro g' hg'
        have h1 := hg g'.1 (List.mem_map_of_mem Prod.fst hg')
        rw [hk] at h1
        exact h1.symm
      have hrest : rs'.flatMap (fun g => if g.1 = k then F g.2 else []) = [] := by
        apply List.flatMap_eq_nil_iff.mpr
        intro g' hg'
        simp [hne g' hg']
      have hrest' : rs'.flatMap (fun g => if g.1 = k then g.2 else []) = [] := by
        apply List.flatMap_eq_nil_iff.mpr
        intro g' hg'
        simp [hne g' hg']
      simp only [List.flatMap_cons, if_pos hk, hrest, hrest', List.append_nil]
    · simp only [List.flatMap_cons, if_neg hk, List.nil_append]
      exact ih hpw'

/-- C8: on a key-contiguous input (what the sort in add_rolling_features
guarantees: distinct runs have distinct keys), the rows of each spatial
group carry exactly the ungrouped rolling mean of that group's own values,
so the window resets at group boundaries and no output depends on another
group. -/
theorem add_rolling_features_spec {K : Type} [DecidableEq K] (w : ℕ)
    (xs : List (K × ℚ))
    (hruns : ((groupRuns xs).map Prod.fst).Pairwise (fun a b => a ≠ b))
    (k : K) :
    ((add_rolling_features w xs).filter (fun p => decide (p.1 = k))).map Prod.snd
      = rollingMean w ((xs.filter (fun p => decide (p.1 = k))).map Prod.snd) := by
  have pair_filter : ∀ (k₁ : K) (l : List ℚ),
      (((l.map (fun v => (k₁, v))).filter (fun p => decide (p.1 = k))).map Prod.snd)
        = if k₁ = k then l else [] := by
    intro k₁ l
    by_cases hk : k₁ = k
    · subst hk
      rw [if_pos rfl]
      have : (l.map (fun v => (k₁, v))).filter (fun p => decide (p.1 = k₁))
          = l.map (fun v => (k₁, v)) := by
        rw [List.filter_eq_self]
        intro a ha
        obtain ⟨v, -, rfl⟩ := List.mem_map.mp ha
        simp
      rw [this, List.map_map]
      simp
    · rw [if_neg hk]
      have : (l.map (fun v => (k₁, v))).filter (fun p => decide (p.1 = k)) = [] := by
        rw [List.filter_eq_nil_iff]
        intro a ha
        obtain ⟨v, -, rfl⟩ := List.mem_map.mp ha
        simpa using hk
      rw [this]
      rfl
  have lhs_eq :
      ((add_rolling_features w xs).filter (fun p => decide (p.1 = k))).map Prod.snd
        = (groupRuns xs).flatMap (fun g => if g.1 = k then rollingMean w g.2 else []) := by
    rw [add_rolling_features, List.filter_flatMap, List.map_flatMap]
    apply List.flatMap_congr
    intro g hg
    exact pair_filter g.1 (rollingMean w g.2)
  have rhs_eq :
      (xs.filter (fun p => decide (p.1 = k))).map Prod.snd
        = (groupRuns xs).flatMap (fun g => if g.1 = k then g.2 else []) := by
    conv_lhs => rw [← groupRuns_flatten xs]
    rw [List.filter_flatMap, List.map_flatMap]
    apply List.flatMap_congr
    intro g hg
    exact pair_filter g.1 g.2
  rw [lhs_eq, rhs_eq]
  exact flatMap_single_key (rollingMean w) (rollingMean_nil w) k (groupRuns xs) hruns

/-- Witness for C8 on a concrete key-contiguous table with two spatial
groups. -/
theorem add_rolling_features_spec_witness :
    ((groupRuns [((1, 1), 10), ((1, 1), 20), ((2, 2), 30)]).map
        Prod.fst).Pairwise (fun a b : ℚ × ℚ => a ≠ b)
    ∧ ((add_rolling_features 3 [((1, 1), 10), ((1, 1), 20), ((2, 2), 30)]).filter
          (fun p => decide (p.1 = ((1 : ℚ), (1 : ℚ))))).map Prod.snd
        = rollingMean 3
            ((([((1, 1), 10), ((1, 1), 20), ((2, 2), 30)] :
                List ((ℚ × ℚ) × ℚ)).filter
              (fun p => decide (p.1 = ((1 : ℚ), (1 : ℚ))))).map Prod.snd) :=
  ⟨by decide,
   add_rolling_features_spec 3 [((1, 1), 10), ((1, 1), 20), ((2, 2), 30)]
     (by decide) ((1 : ℚ), (1 : ℚ))⟩

/-! ## Inference service (inference/main.py)

PredictionRequest carries the validated request body.  The date field is
modelled by the outcome of datetime.strptime(date, "%Y-%m-%d"): none when
strptime raises ValueError, otherwise the weekday, month and day-of-year
the code reads off the parsed date.  HTTPException values are modelled by
their status code and detail string. -/

/-- The values prepare_features extracts from a successfully parsed date:
date_obj.weekday(), date_obj.month, date_obj.timetuple().tm_yday. -/
structure DateParts where
  dayofweek : ℕ
  month : ℕ
  dayofyear : ℕ

/-- The PredictionRequest model of inference/main.py; dateParts is the
strptime outcome for the date string. -/
structure PredictionRequest where
  lat : ℝ
  lon : ℝ
  dateParts : Option DateParts
  hour : ℕ
  temp : ℝ
  tavg : ℝ
  tmin : ℝ
  prcp : ℝ
  temp_roll3 : Option ℝ
  temp_roll7 : Option ℝ
  tavg_roll3 : Option ℝ
  tavg_roll7 : Option ℝ

/-- A fastapi HTTPException: status code and detail message. -/
structure HTTPError where
  status : ℕ
  detail : String

/-- The PredictionResponse model of inference/main.py. -/
structure PredictionResponse where
  risk_score : ℝ
  risk_level : String
  threshold : ℝ
  features_used : ℕ

/-- The module-level state of inference/main.py: the loaded model (as the
map features ↦ predict_proba(features)[0, 1]), feature list, threshold and
optional scaler. -/
structure ServerState where
  model : Option (List ℝ → ℝ)
  feature_list : List String
  threshold : ℝ
  scaler : Option (List ℝ → List ℝ)

/-- prepare_features from inference/main.py: reject an unparseable date
with HTTPException(400), otherwise build the 17-entry feature vector,
defaulting absent rolling features to the instantaneous readings. -/
noncomputable def prepare_features (req : PredictionRequest) :
    Except HTTPError (List ℝ) :=
  match req.dateParts with
  | none => .error ⟨400, "Invalid date format. Use YYYY-MM-DD"⟩
  | some d =>
    let temp_range := req.temp - req.tmin
    let heat_index := req.temp + 0.5 * req.tavg
    let is_peak : ℝ := if 10 ≤ req.hour ∧ req.hour ≤ 17 then 1 else 0
    let is_weekend : ℝ := if d.dayofweek = 5 ∨ d.dayofweek = 6 then 1 else 0
    let dist_center := Real.sqrt ((req.lat - 12.9716) ^ 2 + (req.lon - 77.5946) ^ 2)
    let hour_sin := Real.sin (2 * Real.pi * (req.hour : ℝ) / 24)
    let hour_cos := Real.cos (2 * Real.pi * (req.hour : ℝ) / 24)
    let month_sin := Real.sin (2 * Real.pi * (d.month : ℝ) / 12)
    let month_cos := Real.cos (2 * Real.pi * (d.month : ℝ) / 12)
    let temp_roll3 := req.temp_roll3.getD req.temp
    let temp_roll7 := req.temp_roll7.getD req.temp
    let tavg_roll3 := req.tavg_roll3.getD req.tavg
    let tavg_roll7 := req.tavg_roll7.getD req.tavg
    .ok [req.temp, req.tavg, req.tmin, req.prcp,
      temp_roll3, temp_roll7, tavg_roll3, tavg_roll7,
      temp_range, heat_index, is_peak, is_weekend,
      dist_center, hour_sin, hour_cos, month_sin, month_cos]

/-- A training row of improved_model.py after add_rolling_features: raw
weather fields, coordinates, the timestamp accessors dt.hour, dt.dayofweek
and dt.month, and the per-group rolling means. -/
structure TrainRow where
  lat : ℝ
  lon : ℝ
  hour : ℕ
  dayofweek : ℕ
  month : ℕ
  temp : ℝ
  tavg : ℝ
  tmin : ℝ
  prcp : ℝ
  temp_roll3 : ℝ
  temp_roll7 : ℝ
  tavg_roll3 : ℝ
  tavg_roll7 : ℝ

/-- add_engineered_features from improved_model.py followed by the
feature_cols projection of its prepare_features, restricted to one row:
the engineered training feature vector in training column order. -/
noncomputable def train_feature_vector (row : TrainRow) : List ℝ :=
  let temp_range := row.temp - row.tmin
  let heat_index := row.temp + 0.5 * row.tavg
  let is_peak : ℝ := if 10 ≤ row.hour ∧ row.hour ≤ 17 then 1 else 0
  let is_weekend : ℝ := if row.dayofweek = 5 ∨ row.dayofweek = 6 then 1 else 0
  let dist_center := Real.sqrt ((row.lat - 12.9716) ^ 2 + (row.lon - 77.5946) ^ 2)
  let hour_sin := Real.sin (2 * Real.pi * (row.hour : ℝ) / 24)
  let hour_cos := Real.cos (2 * Real.pi * (row.hour : ℝ) / 24)
  let month_sin := Real.sin (2 * Real.pi * (row.month : ℝ) / 12)
  let month_cos := Real.cos (2 * Real.pi * (row.month : ℝ) / 12)
  [row.temp, row.tavg, row.tmin, row.prcp,
   row.temp_roll3, row.temp_roll7, row.tavg_roll3, row.tavg_roll7,
   temp_range, heat_index, is_peak, is_weekend,
   dist_center, hour_sin, hour_cos, month_sin, month_cos]

/-- C1: a request whose raw fields, date-derived parts and rolling values
equal those of a training row reconstructs exactly the training-time
engineered feature vector, in the same order, of length 17. -/
theorem prepare_features_matches_training
    (lat lon temp tavg tmin prcp tr3 tr7 ta3 ta7 : ℝ)
    (hour dayofweek month dayofyear : ℕ) :
    prepare_features
        { lat := lat, lon := lon,
          dateParts := some ⟨dayofweek, month, dayofyear⟩,
          hour := hour, temp := temp, tavg := tavg, tmin := tmin, prcp := prcp,
          temp_roll3 := some tr3, temp_roll7 := some tr7,
          tavg_roll3 := some ta3, tavg_roll7 := some ta7 }
      = .ok (train_feature_vector
          { lat := lat, lon := lon, hour := hour,
            dayofweek := dayofweek, month := month,
            temp := temp, tavg := tavg, tmin := tmin, prcp := prcp,
            temp_roll3 := tr3, temp_roll7 := tr7,
            tavg_roll3 := ta3, tavg_roll7 := ta7 })
    ∧ (train_feature_vector
          { lat := lat, lon := lon, hour := hour,
            dayofweek := dayofweek, month := month,
            temp := temp, tavg := tavg, tmin := tmin, prcp := prcp,
            temp_roll3 := tr3, temp_roll7 := tr7,
            tavg_roll3 := ta3, tavg_roll7 := ta7 }).length = 17 :=
  ⟨rfl, rfl⟩

/-- str(e) for a fastapi HTTPException e: "<status_code>: <detail>". -/
def httpErrorStr (e : HTTPError) : String :=
  toString e.status ++ ": " ++ e.detail

/-- predict_risk from inference/main.py.  With no model loaded it raises
HTTPException(500, "Model not loaded").  Inside the try block the only
modelled failure is the HTTPException raised by prepare_features; being an
Exception subclass, it is caught by the blanket `except Exception` handler
and re-raised as HTTPException(500, "Prediction error: " + str(e)). -/
noncomputable def predict_risk (st : ServerState) (req : PredictionRequest) :
    Except HTTPError PredictionResponse :=
  match st.model with
  | none => .error ⟨500, "Model not loaded"⟩
  | some m =>
    match prepare_features req with
    | .error e => .error ⟨500, "Prediction error: " ++ httpErrorStr e⟩
    | .ok features =>
      let scaled := match st.scaler with
        | some sc => sc features
        | none => features
      let risk_score := m scaled
      .ok { risk_score := risk_score,
            risk_level := get_risk_level risk_score,
            threshold := st.threshold,
            features_used := st.feature_list.length }

/-- A loaded model bundle (concrete stand-in for the joblib artifacts). -/
noncomputable def demoState : ServerState :=
  { model := some (fun _ => (0.5 : ℝ)),
    feature_list := ["temp", "tavg", "tmin", "prcp", "temp_roll3",
      "temp_roll7", "tavg_roll3", "tavg_roll7", "temp_range", "heat_index",
      "is_peak", "is_weekend", "dist_center", "hour_sin", "hour_cos",
      "month_sin", "month_cos"],
    threshold := 0.35,
    scaler := none }

/-- The server state before load_models has populated the globals. -/
def noModelState : ServerState :=
  { model := none, feature_list := [], threshold := 0.35, scaler := none }

/-- A request whose date string (e.g. "not-a-date") makes strptime raise
ValueError, so its modelled parse outcome is none. -/
def badDateRequest : PredictionRequest :=
  { lat := 12.9716, lon := 77.5946, dateParts := none, hour := 14,
    temp := 38.5, tavg := 30, tmin := 25, prcp := 0,
    temp_roll3 := none, temp_roll7 := none,
    tavg_roll3 := none, tavg_roll7 := none }

/-- C2: evaluation at the failing input.  With a model loaded, a request
whose date cannot be parsed is answered with status 500 (the blanket
exception handler wraps the HTTPException(400) raised by
prepare_features into "Prediction error: 400: ..."), not with the client
error the spec requires; with no model loaded the endpoint returns status
500 "Model not loaded". -/
theorem predict_risk_bad_date_is_500 :
    predict_risk demoState badDateRequest
      = .error ⟨500, "Prediction error: 400: Invalid date format. Use YYYY-MM-DD"⟩
    ∧ predict_risk noModelState badDateRequest
      = .error ⟨500, "Model not loaded"⟩ :=
  ⟨rfl, rfl⟩

end HeatHazard
